import Mathlib

/-!
Verification of the bmps repository's analysis scripts against their
natural-language specification.

The embedding covers:
* `src/fix_labels.py`: the future-candle order simulator (`simulate_order`),
  the stop-loss / profit-target price levels on `Order`, the candle lookup
  (`get_candles_around_timestamp`) and the label grid generator
  (`generate_correct_labels`).  Prices are embedded as rationals; the Python
  code computes with floats but every claim is about order comparisons of
  those prices.
* `src/analyze_q1.py`: the overall win-rate computation.
* `src/py-bmps/src/predictor.py`: the post-processing of the model's
  probability vector in `predict_best_setup` and `predict_top_setups`
  (the XGBoost model itself is abstracted as the probability list it
  returns for the single sample).
* `src/convert_csv_to_parquet_utc.py`: the CSV → Parquet timestamp
  pipeline, over a model of the America/Chicago timezone.

A pandas `DataFrame` of candles sorted by timestamp is embedded as a
`List Candle`; a `numpy` 1-d array as a `List ℚ`.
-/

namespace BMPS

/-- `Candle` dataclass from `src/fix_labels.py` (lines 24-31).
`open` is a Lean keyword, so that field is named `open_`. -/
structure Candle where
  timestamp : ℤ
  open_ : ℚ
  high : ℚ
  low : ℚ
  close : ℚ
  volume : ℤ
deriving DecidableEq

/-- The `order_type: str` field only ever holds "Long" or "Short". -/
inductive OrderType where
  | Long : OrderType
  | Short : OrderType
deriving DecidableEq

/-- `Order` dataclass from `src/fix_labels.py` (lines 33-41),
with its default `tick_size = 0.25`. -/
structure Order where
  order_type : OrderType
  entry_price : ℚ
  stop_loss_ticks : ℤ
  profit_target_ticks : ℤ
  entry_timestamp : ℤ
  placed_timestamp : ℤ
  tick_size : ℚ := 1/4
deriving DecidableEq

/-- `Order.stop_loss_price` property (`src/fix_labels.py` lines 43-48). -/
def Order.stop_loss_price (o : Order) : ℚ :=
  match o.order_type with
  | OrderType.Long => o.entry_price - o.stop_loss_ticks * o.tick_size
  | OrderType.Short => o.entry_price + o.stop_loss_ticks * o.tick_size

/-- `Order.profit_target_price` property (`src/fix_labels.py` lines 50-55). -/
def Order.profit_target_price (o : Order) : ℚ :=
  match o.order_type with
  | OrderType.Long => o.entry_price + o.profit_target_ticks * o.tick_size
  | OrderType.Short => o.entry_price - o.profit_target_ticks * o.tick_size

/-- `simulate_order` (`src/fix_labels.py` lines 57-79): walk the future
candles in order; for a Long order, a candle whose low reaches the stop-loss
price loses, then a candle whose high reaches the profit target wins;
for a Short order the mirrored checks.  Returns `false` when no candle
touches either level ("order expired"). -/
def simulate_order (o : Order) : List Candle → Bool
  | [] => false
  | candle :: rest =>
    match o.order_type with
    | OrderType.Long =>
      if candle.low ≤ o.stop_loss_price then false
      else if o.profit_target_price ≤ candle.high then true
      else simulate_order o rest
    | OrderType.Short =>
      if o.stop_loss_price ≤ candle.high then false
      else if candle.low ≤ o.profit_target_price then true
      else simulate_order o rest

/-- The candle "touches" the order's stop-loss level: for a Long order its
low is at or below `stop_loss_price`, for a Short order its high is at or
above it (the conditions of lines 65 and 72 of `src/fix_labels.py`). -/
def stopTouched (o : Order) (c : Candle) : Bool :=
  match o.order_type with
  | OrderType.Long => decide (c.low ≤ o.stop_loss_price)
  | OrderType.Short => decide (o.stop_loss_price ≤ c.high)

/-- The candle "touches" the order's profit-target level: for a Long order
its high is at or above `profit_target_price`, for a Short order its low is
at or below it (the conditions of lines 68 and 75 of `src/fix_labels.py`). -/
def targetTouched (o : Order) (c : Candle) : Bool :=
  match o.order_type with
  | OrderType.Long => decide (o.profit_target_price ≤ c.high)
  | OrderType.Short => decide (c.low ≤ o.profit_target_price)

lemma simulate_order_cons (o : Order) (c : Candle) (rest : List Candle) :
    simulate_order o (c :: rest) =
      if stopTouched o c then false
      else if targetTouched o c then true
      else simulate_order o rest := by
  cases h : o.order_type <;>
    simp [simulate_order, stopTouched, targetTouched, h]

/-- `simulate_order` is decided by the first candle that touches either
level: it wins exactly when that candle does not touch the stop. -/
lemma simulate_order_eq_find (o : Order) (cs : List Candle) :
    simulate_order o cs =
      ((cs.find? (fun c => stopTouched o c || targetTouched o c)).map
        (fun c => !stopTouched o c)).getD false := by
  induction cs with
  | nil => simp [simulate_order]
  | cons c rest ih =>
    rw [simulate_order_cons, List.find?_cons]
    by_cases hs : stopTouched o c
    · simp [hs]
    · by_cases ht : targetTouched o c
      · simp [hs, ht]
      · simp [hs, ht, ih]

/-- Reflection of a candle's price range about the entry price `e`:
the high becomes `2e` minus the low and the low becomes `2e` minus the
high (the other fields are unchanged). -/
def reflectCandle (e : ℚ) (c : Candle) : Candle :=
  { c with high := 2 * e - c.low, low := 2 * e - c.high }

/-- C1: `simulate_order` reports a win exactly when the order's
profit-target level is touched before the opposite (stop-loss) level:
there is a candle touching the profit target (for a Long order, its high at
or above `profit_target_price`; for a Short order, its low at or below it)
such that no candle up to and including it touches the stop loss (for a
Long order, a low at or below `stop_loss_price`; for a Short order, a high
at or above it). -/
theorem simulate_order_wins_iff_target_before_stop (o : Order) (cs : List Candle) :
    simulate_order o cs = true ↔
      ∃ l₁ c l₂, cs = l₁ ++ c :: l₂ ∧ targetTouched o c = true ∧
        stopTouched o c = false ∧ ∀ d ∈ l₁, stopTouched o d = false := by
  induction cs with
  | nil =>
    simp [simulate_order]
  | cons a rest ih =>
    rw [simulate_order_cons]
    by_cases hs : stopTouched o a
    · simp only [hs, if_true, Bool.false_eq_true, false_iff]
      rintro ⟨l₁, c, l₂, heq, ht, hcs, hl⟩
      rcases l₁ with _ | ⟨x, l₁⟩
      · rw [List.nil_append, List.cons.injEq] at heq
        exact absurd hs (heq.1 ▸ (by simp [hcs]))
      · rw [List.cons_append, List.cons.injEq] at heq
        have hx : stopTouched o x = false := hl x (by simp)
        rw [← heq.1] at hx
        simp [hs] at hx
    · by_cases ht : targetTouched o a
      · simp only [hs, ht, if_false, if_true, Bool.false_eq_true, true_iff]
        exact ⟨[], a, rest, by simp, ht, by simp [hs], by simp⟩
      · simp only [hs, ht, if_false, Bool.false_eq_true]
        rw [ih]
        constructor
        · rintro ⟨l₁, c, l₂, heq, htc, hcs, hl⟩
          refine ⟨a :: l₁, c, l₂, by rw [heq, List.cons_append], htc, hcs, ?_⟩
          intro d hd
          rcases List.mem_cons.mp hd with rfl | hd'
          · simp [hs]
          · exact hl d hd'
        · rintro ⟨l₁, c, l₂, heq, htc, hcs, hl⟩
          rcases l₁ with _ | ⟨x, l₁⟩
          · rw [List.nil_append, List.cons.injEq] at heq
            rw [← heq.1] at htc
            simp [htc] at ht
          · rw [List.cons_append, List.cons.injEq] at heq
            exact ⟨l₁, c, l₂, heq.2, htc, hcs, fun d hd => hl d (by simp [hd])⟩

theorem simulate_order_wins_iff_target_before_stop_witness :
    simulate_order ⟨OrderType.Long, 100, 4, 8, 0, 0, 1/4⟩
      [⟨1, 100, 102, 100, 101, 0⟩] = true :=
  (simulate_order_wins_iff_target_before_stop
      ⟨OrderType.Long, 100, 4, 8, 0, 0, 1/4⟩ [⟨1, 100, 102, 100, 101, 0⟩]).mpr
    ⟨[], ⟨1, 100, 102, 100, 101, 0⟩, [], rfl,
      by norm_num [targetTouched, Order.profit_target_price],
      by norm_num [stopTouched, Order.stop_loss_price], by simp⟩

/-- C7: `simulate_order` is a single forward scan: it is a total function
(so it terminates on every finite candle list), and its result is fully
determined by the first candle, in list order, that touches either the
stop-loss or the profit-target level — the scan stops there, returning
`false` when that candle touches the stop and `true` otherwise, and it
returns `false` when no candle touches either level. -/
theorem simulate_order_first_touch_scan (o : Order) (cs : List Candle) :
    simulate_order o cs =
      ((cs.find? (fun c => stopTouched o c || targetTouched o c)).map
        (fun c => !stopTouched o c)).getD false :=
  simulate_order_eq_find o cs

/-- C8: when the first candle that touches either level touches both of
them (for a Long order: low at or below the stop-loss price and high at or
above the profit-target price; mirrored for a Short order), the stop-loss
check takes priority and `simulate_order` scores the order a loss. -/
theorem simulate_order_both_touched_loses (o : Order) (l₁ : List Candle)
    (c : Candle) (l₂ : List Candle)
    (hfirst : ∀ d ∈ l₁, stopTouched o d = false ∧ targetTouched o d = false)
    (hstop : stopTouched o c = true) (htarget : targetTouched o c = true) :
    simulate_order o (l₁ ++ c :: l₂) = false := by
  induction l₁ with
  | nil =>
    rw [List.nil_append, simulate_order_cons, hstop]
    simp
  | cons x l₁ ih =>
    rw [List.cons_append, simulate_order_cons,
      (hfirst x (by simp)).1, (hfirst x (by simp)).2]
    simpa using ih (fun d hd => hfirst d (by simp [hd]))

theorem simulate_order_both_touched_loses_witness :
    simulate_order ⟨OrderType.Long, 100, 4, 8, 0, 0, 1/4⟩
      [⟨1, 100, 103, 98, 100, 0⟩] = false :=
  simulate_order_both_touched_loses _ [] _ [] (by simp)
    (by norm_num [stopTouched, Order.stop_loss_price])
    (by norm_num [targetTouched, Order.profit_target_price])

/-- C9: Long/Short mirror symmetry.  Simulating a Short order over a candle
list gives the same result as simulating the corresponding Long order (same
entry price, tick counts and tick size) over the price-reflected candle
list, where each candle's high is replaced by `2e - low` and its low by
`2e - high`. -/
theorem simulate_order_short_eq_long_reflected (e tick : ℚ) (sl pt ts ps : ℤ)
    (cs : List Candle) :
    simulate_order ⟨OrderType.Short, e, sl, pt, ts, ps, tick⟩ cs =
      simulate_order ⟨OrderType.Long, e, sl, pt, ts, ps, tick⟩
        (cs.map (reflectCandle e)) := by
  induction cs with
  | nil => rfl
  | cons c rest ih =>
    simp only [List.map_cons, simulate_order, Order.stop_loss_price,
      Order.profit_target_price, reflectCandle]
    by_cases h1 : e + (sl : ℚ) * tick ≤ c.high
    · have h1' : 2 * e - c.high ≤ e - (sl : ℚ) * tick := by linarith
      simp [h1, h1']
    · have h1' : ¬ (2 * e - c.high ≤ e - (sl : ℚ) * tick) := fun h => h1 (by linarith)
      by_cases h2 : c.low ≤ e - (pt : ℚ) * tick
      · have h2' : e + (pt : ℚ) * tick ≤ 2 * e - c.low := by linarith
        simp [h1, h1', h2, h2']
      · have h2' : ¬ (e + (pt : ℚ) * tick ≤ 2 * e - c.low) := fun h => h2 (by linarith)
        simp [h1, h1', h2, h2', ih]

/-- `get_candles_around_timestamp` (`src/fix_labels.py` lines 81-100):
candles strictly after the timestamp, first `lag_candles` of them.  The
sorted `DataFrame` is embedded as the list `candle_df`. -/
def get_candles_around_timestamp (candle_df : List Candle) (timestamp : ℤ)
    (lag_candles : ℕ := 20) : List Candle :=
  (candle_df.filter (fun c => decide (timestamp < c.timestamp))).take lag_candles

/-- `generate_correct_labels` (`src/fix_labels.py` lines 102-146): with no
future candles, 194 zeros; otherwise the first future candle provides the
entry price (its close) and the remaining candles drive the simulation, over
the grid of stop-loss distances 4..100 (outer loop) × Long/Short (inner
loop) with a 2:1 profit-target ratio. -/
def generate_correct_labels (entry_timestamp : ℤ) (candle_df : List Candle)
    (lag_candles : ℕ := 20) : List ℚ :=
  match get_candles_around_timestamp candle_df entry_timestamp lag_candles with
  | [] => List.replicate 194 0
  | entry_candle :: simulation_candles =>
    ((List.range' 4 97).map (fun (stop_loss : ℕ) =>
      [OrderType.Long, OrderType.Short].map (fun order_type =>
        let profit_target : ℕ := stop_loss * 2
        if simulate_order
            { order_type := order_type
              entry_price := entry_candle.close
              stop_loss_ticks := (stop_loss : ℤ)
              profit_target_ticks := (profit_target : ℤ)
              entry_timestamp := entry_timestamp
              placed_timestamp := entry_candle.timestamp }
            simulation_candles
        then (1 : ℚ) else 0))).flatten

lemma map_pair_flatten_length (f g : ℕ → ℚ) (l : List ℕ) :
    ((l.map (fun sl => [f sl, g sl])).flatten).length = 2 * l.length := by
  induction l with
  | nil => simp
  | cons x l ih => simp [ih]; ring

lemma map_pair_flatten_getD (f g : ℕ → ℚ) (l : List ℕ) (d : ℚ) :
    ∀ k, k < l.length →
      ((l.map (fun sl => [f sl, g sl])).flatten.getD (2 * k) d = f (l.getD k 0)) ∧
      ((l.map (fun sl => [f sl, g sl])).flatten.getD (2 * k + 1) d = g (l.getD k 0)) := by
  induction l with
  | nil => intro k hk; simp at hk
  | cons x l ih =>
    intro k hk
    cases k with
    | zero => simp
    | succ k =>
      have h2 : 2 * (k + 1) = 2 * k + 1 + 1 := by ring
      rw [h2]
      simp only [List.map_cons, List.flatten_cons, List.cons_append,
        List.nil_append, List.getD_cons_succ, List.getD_cons_zero]
      exact ih k (by simpa using hk)

/-- C2: for an entry timestamp with at least one future candle,
`generate_correct_labels` returns exactly 194 labels — one per cell of the
grid of 97 stop-loss distances (4..100 ticks, ascending in the outer loop)
by 2 directions (Long before Short in the inner loop) — where the cell
`(4 + k, dir)` sits at index `2k` (Long) / `2k + 1` (Short), the simulated
order's profit target is twice its stop-loss distance, and the label is 1
when the simulated order wins and 0 otherwise. -/
theorem generate_correct_labels_grid (entry_timestamp : ℤ) (candle_df : List Candle)
    (entry_candle : Candle) (simulation_candles : List Candle)
    (h : get_candles_around_timestamp candle_df entry_timestamp 20 =
      entry_candle :: simulation_candles) :
    (generate_correct_labels entry_timestamp candle_df 20).length = 194 ∧
    ∀ k, k < 97 →
      ((generate_correct_labels entry_timestamp candle_df 20).getD (2 * k) 0 =
        if simulate_order
            { order_type := OrderType.Long
              entry_price := entry_candle.close
              stop_loss_ticks := 4 + (k : ℤ)
              profit_target_ticks := (4 + (k : ℤ)) * 2
              entry_timestamp := entry_timestamp
              placed_timestamp := entry_candle.timestamp }
            simulation_candles
        then (1 : ℚ) else 0) ∧
      ((generate_correct_labels entry_timestamp candle_df 20).getD (2 * k + 1) 0 =
        if simulate_order
            { order_type := OrderType.Short
              entry_price := entry_candle.close
              stop_loss_ticks := 4 + (k : ℤ)
              profit_target_ticks := (4 + (k : ℤ)) * 2
              entry_timestamp := entry_timestamp
              placed_timestamp := entry_candle.timestamp }
            simulation_candles
        then (1 : ℚ) else 0) := by
  have hgen : generate_correct_labels entry_timestamp candle_df 20 =
      ((List.range' 4 97).map (fun (stop_loss : ℕ) =>
        [(if simulate_order
            { order_type := OrderType.Long
              entry_price := entry_candle.close
              stop_loss_ticks := (stop_loss : ℤ)
              profit_target_ticks := ((stop_loss * 2 : ℕ) : ℤ)
              entry_timestamp := entry_timestamp
              placed_timestamp := entry_candle.timestamp }
            simulation_candles
          then (1 : ℚ) else 0),
         (if simulate_order
            { order_type := OrderType.Short
              entry_price := entry_candle.close
              stop_loss_ticks := (stop_loss : ℤ)
              profit_target_ticks := ((stop_loss * 2 : ℕ) : ℤ)
              entry_timestamp := entry_timestamp
              placed_timestamp := entry_candle.timestamp }
            simulation_candles
          then (1 : ℚ) else 0)])).flatten := by
    rw [generate_correct_labels, h]
    simp only [List.map_cons, List.map_nil]
  constructor
  · rw [hgen, map_pair_flatten_length, List.length_range']
  · intro k hk
    have hlen : k < (List.range' 4 97).length := by
      rw [List.length_range']; exact hk
    have hval : (List.range' 4 97).getD k 0 = 4 + k := by
      rw [List.getD_eq_getElem _ _ hlen, List.getElem_range']
      ring
    have hspec := map_pair_flatten_getD
      (fun (stop_loss : ℕ) =>
        if simulate_order
            { order_type := OrderType.Long
              entry_price := entry_candle.close
              stop_loss_ticks := (stop_loss : ℤ)
              profit_target_ticks := ((stop_loss * 2 : ℕ) : ℤ)
              entry_timestamp := entry_timestamp
              placed_timestamp := entry_candle.timestamp }
            simulation_candles
        then (1 : ℚ) else 0)
      (fun (stop_loss : ℕ) =>
        if simulate_order
            { order_type := OrderType.Short
              entry_price := entry_candle.close
              stop_loss_ticks := (stop_loss : ℤ)
              profit_target_ticks := ((stop_loss * 2 : ℕ) : ℤ)
              entry_timestamp := entry_timestamp
              placed_timestamp := entry_candle.timestamp }
            simulation_candles
        then (1 : ℚ) else 0)
      (List.range' 4 97) 0 k hlen
    rw [hval] at hspec
    rw [hgen]
    have c1 : ((4 + k : ℕ) : ℤ) = 4 + (k : ℤ) := by push_cast; ring
    have c2 : (((4 + k) * 2 : ℕ) : ℤ) = (4 + (k : ℤ)) * 2 := by push_cast; ring
    constructor
    · simp only [hspec.1, c1, c2]
    · simp only [hspec.2, c1, c2]

theorem generate_correct_labels_grid_witness :
    (generate_correct_labels 0 [⟨1, 100, 101, 99, 100, 0⟩] 20).length = 194 :=
  (generate_correct_labels_grid 0 [⟨1, 100, 101, 99, 100, 0⟩]
    ⟨1, 100, 101, 99, 100, 0⟩ [] rfl).1

/-- C3: when no candle lies strictly after the entry timestamp,
`generate_correct_labels` returns (totally, with no exception) the vector
of exactly 194 zeros, labelling every grid cell a loss. -/
theorem generate_correct_labels_no_future (entry_timestamp : ℤ)
    (candle_df : List Candle)
    (h : candle_df.filter (fun c => decide (entry_timestamp < c.timestamp)) = []) :
    generate_correct_labels entry_timestamp candle_df 20 = List.replicate 194 0 := by
  rw [generate_correct_labels, get_candles_around_timestamp, h]
  simp

theorem generate_correct_labels_no_future_witness :
    generate_correct_labels 0 [] 20 = List.replicate 194 0 :=
  generate_correct_labels_no_future 0 [] rfl

/-- A row of `orders.csv` as read by `src/analyze_q1.py`.  Only the
`status` column enters the overall win-rate computation, so the other
columns of the CSV are not carried. -/
structure OrderRow where
  status : String
deriving DecidableEq

/-- `df['is_win'] = df['status'] == 'Profit'` (`src/analyze_q1.py` line 23). -/
def is_win (r : OrderRow) : Bool :=
  r.status == "Profit"

/-- `completed = df[df['status'].isin(['Profit', 'Loss'])]`
(`src/analyze_q1.py` line 50). -/
def completed (df : List OrderRow) : List OrderRow :=
  df.filter (fun r => r.status == "Profit" || r.status == "Loss")

/-- `total_orders = len(completed)` (`src/analyze_q1.py` line 57). -/
def total_orders (df : List OrderRow) : ℕ :=
  (completed df).length

/-- `wins = completed['is_win'].sum()` (`src/analyze_q1.py` line 58). -/
def wins (df : List OrderRow) : ℕ :=
  ((completed df).filter is_win).length

/-- `losses = total_orders - wins` (`src/analyze_q1.py` line 59). -/
def losses (df : List OrderRow) : ℕ :=
  total_orders df - wins df

/-- `overall_wr = wins / total_orders * 100` (`src/analyze_q1.py` line 60). -/
def overall_wr (df : List OrderRow) : ℚ :=
  (wins df : ℚ) / (total_orders df : ℚ) * 100

lemma wins_eq_countP_profit (df : List OrderRow) :
    wins df = df.countP (fun r => r.status == "Profit") := by
  rw [wins, completed, ← List.countP_eq_length_filter, List.countP_filter]
  exact List.countP_congr (fun r _ => by
    cases hb : r.status == "Profit" <;> simp [is_win, hb])

/-- C5: the overall win rate equals the number of orders with status
`"Profit"` divided by the number of completed orders (status `"Profit"` or
`"Loss"`), times 100; orders with any other status count in neither the
numerator nor the denominator, and losses equal completed orders minus
wins. -/
theorem overall_wr_spec (df : List OrderRow) (h : 0 < total_orders df) :
    overall_wr df =
      (df.countP (fun r => r.status == "Profit") : ℚ) /
        (df.countP (fun r => r.status == "Profit" || r.status == "Loss") : ℚ) * 100 ∧
    wins df = df.countP (fun r => r.status == "Profit") ∧
    losses df = total_orders df - wins df := by
  refine ⟨?_, wins_eq_countP_profit df, rfl⟩
  rw [overall_wr, wins_eq_countP_profit, total_orders, completed,
    ← List.countP_eq_length_filter]

theorem overall_wr_spec_witness :
    overall_wr [⟨"Profit"⟩, ⟨"Loss"⟩, ⟨"Cancelled"⟩] =
      (([⟨"Profit"⟩, ⟨"Loss"⟩, ⟨"Cancelled"⟩] : List OrderRow).countP
          (fun r => r.status == "Profit") : ℚ) /
        (([⟨"Profit"⟩, ⟨"Loss"⟩, ⟨"Cancelled"⟩] : List OrderRow).countP
          (fun r => r.status == "Profit" || r.status == "Loss") : ℚ) * 100 ∧
    wins [⟨"Profit"⟩, ⟨"Loss"⟩, ⟨"Cancelled"⟩] =
      ([⟨"Profit"⟩, ⟨"Loss"⟩, ⟨"Cancelled"⟩] : List OrderRow).countP
        (fun r => r.status == "Profit") ∧
    losses [⟨"Profit"⟩, ⟨"Loss"⟩, ⟨"Cancelled"⟩] =
      total_orders [⟨"Profit"⟩, ⟨"Loss"⟩, ⟨"Cancelled"⟩] -
        wins [⟨"Profit"⟩, ⟨"Loss"⟩, ⟨"Cancelled"⟩] :=
  overall_wr_spec [⟨"Profit"⟩, ⟨"Loss"⟩, ⟨"Cancelled"⟩] (by decide)

/-- `np.argmax` on a 1-d array: the index of the first occurrence of the
maximum value (0 on an empty list; `predict_best_setup` never reaches that
case because the empty list has no entry above the threshold). -/
def np_argmax (l : List ℚ) : ℕ :=
  match l.maximum with
  | none => 0
  | some m => l.indexOf m

/-- `BMPSPredictor.predict_best_setup`
(`src/py-bmps/src/predictor.py` lines 52-92) for a single sample.  The
XGBoost model is abstracted as the probability list `probs` it returns for
the sample (`probs = probabilities[0]`); the function then post-processes
it: if no probability strictly exceeds the threshold, `(None, 0.0)`;
otherwise `np.argmax` with its probability, returned when it strictly
exceeds the threshold. -/
def predict_best_setup (probs : List ℚ) (threshold : ℚ) : Option ℕ × ℚ :=
  if (probs.any (fun p => decide (threshold < p))) = false then (none, 0)
  else
    let best_idx := np_argmax probs
    let best_prob := probs.getD best_idx 0
    if threshold < best_prob then (some best_idx, best_prob) else (none, 0)

lemma np_argmax_spec (probs : List ℚ) (p : ℚ) (hp : p ∈ probs) :
    np_argmax probs < probs.length ∧
      (∀ j, j < probs.length → probs.getD j 0 ≤ probs.getD (np_argmax probs) 0) := by
  rcases hm : probs.maximum with _ | m
  · rw [List.maximum_eq_none] at hm
    subst hm
    simp at hp
  · have hmem : m ∈ probs := List.maximum_mem hm
    have hidx : probs.indexOf m < probs.length := List.indexOf_lt_length.mpr hmem
    have hval : probs.getD (probs.indexOf m) 0 = m := by
      rw [List.getD_eq_getElem _ _ hidx, List.getElem_indexOf]
    refine ⟨by rw [np_argmax, hm]; exact hidx, ?_⟩
    intro j hj
    rw [np_argmax, hm, hval, List.getD_eq_getElem _ _ hj]
    exact List.le_maximum_of_mem (List.getElem_mem hj) hm

/-- C6: for a single-sample probability vector and any threshold,
`predict_best_setup` returns `(None, 0.0)` exactly when no setup's
probability strictly exceeds the threshold; otherwise it returns the index
of the (first) maximum-probability setup together with that probability,
which strictly exceeds the threshold. -/
theorem predict_best_setup_spec (probs : List ℚ) (threshold : ℚ) :
    (predict_best_setup probs threshold = (none, 0) ↔ ∀ p ∈ probs, p ≤ threshold) ∧
    ((∃ p ∈ probs, threshold < p) →
      ∃ i, i < probs.length ∧
        predict_best_setup probs threshold = (some i, probs.getD i 0) ∧
        threshold < probs.getD i 0 ∧
        ∀ j, j < probs.length → probs.getD j 0 ≤ probs.getD i 0) := by
  by_cases hany : ∃ p ∈ probs, threshold < p
  · obtain ⟨p, hp, hlt⟩ := hany
    have hb : (probs.any (fun p => decide (threshold < p))) = true :=
      List.any_eq_true.mpr ⟨p, hp, by simpa using hlt⟩
    obtain ⟨hidx, hmax⟩ := np_argmax_spec probs p hp
    have hbig : threshold < probs.getD (np_argmax probs) 0 :=
      lt_of_lt_of_le hlt (by
        have := hmax (probs.indexOf p) (List.indexOf_lt_length.mpr hp)
        rwa [List.getD_eq_getElem _ _ (List.indexOf_lt_length.mpr hp),
          List.getElem_indexOf] at this)
    have hres : predict_best_setup probs threshold =
        (some (np_argmax probs), probs.getD (np_argmax probs) 0) := by
      rw [predict_best_setup, hb, if_neg (by decide : ¬ ((true : Bool) = false))]
      show (if threshold < probs.getD (np_argmax probs) 0 then
        (some (np_argmax probs), probs.getD (np_argmax probs) 0)
        else (none, 0)) = _
      rw [if_pos hbig]
    refine ⟨?_, fun _ => ⟨np_argmax probs, hidx, hres, hbig, hmax⟩⟩
    rw [hres]
    constructor
    · intro hcontra
      exact absurd (congrArg Prod.fst hcontra) (by simp)
    · intro hall
      exact absurd hlt (not_lt.mpr (hall p hp))
  · have hb : (probs.any (fun p => decide (threshold < p))) = false := by
      rw [Bool.eq_false_iff]
      intro hc
      obtain ⟨p, hp, hlt⟩ := List.any_eq_true.mp hc
      exact hany ⟨p, hp, by simpa using hlt⟩
    have hres : predict_best_setup probs threshold = (none, 0) := by
      rw [predict_best_setup, hb]
      simp
    exact ⟨⟨fun _ => fun p hp => not_lt.mp (fun hlt => hany ⟨p, hp, hlt⟩),
      fun _ => hres⟩, fun hc => absurd hc hany⟩

theorem predict_best_setup_spec_witness :
    predict_best_setup [(1 : ℚ)/4, 2/5] (1/2) = (none, 0) :=
  (predict_best_setup_spec [(1 : ℚ)/4, 2/5] (1/2)).1.mpr (by norm_num)

/-- `BMPSPredictor.predict_top_setups`
(`src/py-bmps/src/predictor.py` lines 94-145) for a single sample, again
abstracted over the probability list `probs` for the sample.  The viable
`(index, probability)` pairs are the entries strictly above the threshold
(`np.where(above_threshold)[0]` keeps the original indices, here via
`List.enum`); they are sorted by probability descending
(`np.argsort(viable_probs)[::-1]`, modelled as an ascending sort followed
by `reverse` — numpy's unstable `argsort` fixes no particular order among
ties) and the first `top_n` are returned. -/
def predict_top_setups (probs : List ℚ) (threshold : ℚ) (top_n : ℕ) :
    List (ℕ × ℚ) :=
  let above_threshold := probs.enum.filter (fun ip => decide (threshold < ip.2))
  if above_threshold.isEmpty then []
  else
    ((above_threshold.mergeSort (fun a b => decide (a.2 ≤ b.2))).reverse).take top_n

lemma predict_top_setups_eq (probs : List ℚ) (threshold : ℚ) (top_n : ℕ) :
    predict_top_setups probs threshold top_n =
      if (probs.enum.filter (fun ip => decide (threshold < ip.2))) = [] then []
      else (((probs.enum.filter (fun ip => decide (threshold < ip.2))).mergeSort
        (fun a b => decide (a.2 ≤ b.2))).reverse).take top_n := by
  simp only [predict_top_setups, List.isEmpty_iff]

lemma snd_mem_of_mem_enum {l : List ℚ} {ip : ℕ × ℚ} (h : ip ∈ l.enum) :
    ip.2 ∈ l := by
  have : ip.2 ∈ l.enum.map Prod.snd := List.mem_map.mpr ⟨ip, h, rfl⟩
  rwa [List.enum_map_snd] at this

/-- C10: for every single-sample probability vector, threshold, and
positive `top_n`, `predict_top_setups` returns at most `top_n`
`(setup_index, probability)` pairs, in non-increasing probability order,
all of whose probabilities strictly exceed the threshold, and it returns
the empty list exactly when no entry strictly exceeds the threshold. -/
theorem predict_top_setups_spec (probs : List ℚ) (threshold : ℚ) (top_n : ℕ)
    (htop : 0 < top_n) :
    (predict_top_setups probs threshold top_n).length ≤ top_n ∧
    List.Pairwise (fun a b : ℕ × ℚ => b.2 ≤ a.2)
      (predict_top_setups probs threshold top_n) ∧
    (∀ ip ∈ predict_top_setups probs threshold top_n, threshold < ip.2) ∧
    (predict_top_setups probs threshold top_n = [] ↔ ∀ p ∈ probs, p ≤ threshold) := by
  rw [predict_top_setups_eq]
  by_cases hAe : (probs.enum.filter (fun ip => decide (threshold < ip.2))) = []
  · rw [if_pos hAe]
    refine ⟨by simp, by simp, by simp, ?_⟩
    constructor
    · intro _ p hp
      by_contra hlt
      have hps : p ∈ probs.enum.map Prod.snd := by rw [List.enum_map_snd]; exact hp
      obtain ⟨ip, hip, hsnd⟩ := List.mem_map.mp hps
      have : ip ∈ probs.enum.filter (fun ip => decide (threshold < ip.2)) :=
        List.mem_filter.mpr ⟨hip, by simp [hsnd]; exact not_le.mp hlt⟩
      rw [hAe] at this
      exact List.not_mem_nil ip this
    · intro _; rfl
  · rw [if_neg hAe]
    have htrans : ∀ a b c : ℕ × ℚ, (fun a b : ℕ × ℚ => decide (a.2 ≤ b.2)) a b = true →
        (fun a b : ℕ × ℚ => decide (a.2 ≤ b.2)) b c = true →
        (fun a b : ℕ × ℚ => decide (a.2 ≤ b.2)) a c = true := by
      intro a b c h1 h2
      simp only [decide_eq_true_eq] at *
      exact le_trans h1 h2
    have htotal : ∀ a b : ℕ × ℚ, ((fun a b : ℕ × ℚ => decide (a.2 ≤ b.2)) a b ||
        (fun a b : ℕ × ℚ => decide (a.2 ≤ b.2)) b a) = true := by
      intro a b
      simpa using le_total a.2 b.2
    have hsorted := List.sorted_mergeSort htrans htotal
      (probs.enum.filter (fun ip => decide (threshold < ip.2)))
    have hsorted' : List.Pairwise (fun a b : ℕ × ℚ => a.2 ≤ b.2)
        ((probs.enum.filter (fun ip => decide (threshold < ip.2))).mergeSort
          (fun a b => decide (a.2 ≤ b.2))) :=
      hsorted.imp (fun h => by simpa using h)
    have hrev : List.Pairwise (fun a b : ℕ × ℚ => b.2 ≤ a.2)
        ((probs.enum.filter (fun ip => decide (threshold < ip.2))).mergeSort
          (fun a b => decide (a.2 ≤ b.2))).reverse :=
      List.pairwise_reverse.mpr hsorted'
    have hperm := List.mergeSort_perm
      (probs.enum.filter (fun ip => decide (threshold < ip.2)))
      (fun a b => decide (a.2 ≤ b.2))
    refine ⟨List.length_take_le _ _,
      List.Pairwise.sublist (List.take_sublist _ _) hrev, ?_, ?_⟩
    · intro ip hip
      have h1 : ip ∈ ((probs.enum.filter (fun ip => decide (threshold < ip.2))).mergeSort
          (fun a b => decide (a.2 ≤ b.2))).reverse := (List.take_sublist _ _).subset hip
      have h2 : ip ∈ probs.enum.filter (fun ip => decide (threshold < ip.2)) :=
        hperm.mem_iff.mp (List.mem_reverse.mp h1)
      have := (List.mem_filter.mp h2).2
      simpa using this
    · have hlen : 0 < (((probs.enum.filter (fun ip => decide (threshold < ip.2))).mergeSort
          (fun a b => decide (a.2 ≤ b.2))).reverse).length := by
        rw [List.length_reverse, hperm.length_eq]
        exact List.length_pos.mpr hAe
      have hne : ((((probs.enum.filter (fun ip => decide (threshold < ip.2))).mergeSort
          (fun a b => decide (a.2 ≤ b.2))).reverse).take top_n) ≠ [] := by
        rw [← List.length_pos, List.length_take]
        exact lt_min htop hlen
      constructor
      · intro hcontra
        exact absurd hcontra hne
      · intro hall
        exfalso
        obtain ⟨ip, hip⟩ := List.exists_mem_of_ne_nil _ hAe
        obtain ⟨hmem, hpred⟩ := List.mem_filter.mp hip
        have hlt : threshold < ip.2 := by simpa using hpred
        exact absurd (hall ip.2 (snd_mem_of_mem_enum hmem)) (not_le.mpr hlt)

theorem predict_top_setups_spec_witness :
    predict_top_setups [] (1/2) 3 = [] :=
  ((predict_top_setups_spec [] (1/2) 3 (by norm_num)).2.2.2).mpr
    (fun p hp => absurd hp (List.not_mem_nil p))

/-- A parsed row of the input CSV of `src/convert_csv_to_parquet_utc.py`
(`date;time;open;high;low;close;volume`, date `DD/MM/YYYY`, time `HH:MM`):
the `pd.to_datetime(..., format=...)` parse of lines 36-43 is embedded by
starting from the already-split calendar fields. -/
structure CsvRow where
  day : ℕ
  month : ℕ
  year : ℕ
  hour : ℕ
  minute : ℕ
  open_ : ℚ
  high : ℚ
  low : ℚ
  close : ℚ
  volume : ℤ

/-- Modelled from the spec: days between a civil date and 1970-01-01 in the
proleptic Gregorian calendar (Howard Hinnant's `days_from_civil`, with
C-style truncating division).  Calendar arithmetic is not part of the
repository's source; `pandas` performs it inside `pd.to_datetime`. -/
def days_from_civil (y m d : ℕ) : ℤ :=
  let yi : ℤ := (y : ℤ) - (if m ≤ 2 then 1 else 0)
  let era : ℤ := (if 0 ≤ yi then yi else yi - 399).tdiv 400
  let yoe : ℤ := yi - era * 400
  let mp : ℤ := if 2 < m then (m : ℤ) - 3 else (m : ℤ) + 9
  let doy : ℤ := (153 * mp + 2).tdiv 5 + (d : ℤ) - 1
  let doe : ℤ := yoe * 365 + yoe.tdiv 4 - yoe.tdiv 100 + doy
  era * 146097 + doe - 719468

/-- Day of week of a civil date, `0` = Sunday (1970-01-01 was a Thursday). -/
def day_of_week (y m d : ℕ) : ℤ :=
  (days_from_civil y m d + 4).emod 7

/-- Day of month (1-based) of the first Sunday of the given month. -/
def first_sunday_of_month (y m : ℕ) : ℤ :=
  1 + (7 - day_of_week y m 1).emod 7

def second_sunday_march (y : ℕ) : ℤ :=
  first_sunday_of_month y 3 + 7

def first_sunday_november (y : ℕ) : ℤ :=
  first_sunday_of_month y 11

example : days_from_civil 1970 1 1 = 0 := by decide
example : days_from_civil 1970 1 4 = 3 := by decide
example : day_of_week 1970 1 4 = 0 := by decide
example : second_sunday_march 2024 = 10 := by decide
example : first_sunday_november 2024 = 3 := by decide
example : second_sunday_march 2025 = 9 := by decide
example : first_sunday_november 2025 = 2 := by decide

/-- A within-year key strictly monotone in `(month, day, hour, minute)`,
used to compare a local time with the DST transition instants. -/
def local_key (r : CsvRow) : ℤ :=
  (((r.month : ℤ) * 31 + r.day) * 24 + r.hour) * 60 + r.minute

/-- Key of the spring-forward instant (2:00 local on the second Sunday of
March): local times in `[key, key + 60)` do not exist. -/
def spring_forward_key (y : ℕ) : ℤ :=
  ((3 * 31 + second_sunday_march y) * 24 + 2) * 60

/-- Key of the start of the repeated hour at fall-back (1:00 local on the
first Sunday of November): local times in `[key, key + 60)` occur twice. -/
def fall_back_key (y : ℕ) : ℤ :=
  ((11 * 31 + first_sunday_november y) * 24 + 1) * 60

/-- Modelled from the spec: the row's local time does not exist in
America/Chicago (it falls in the spring-forward gap).  The America/Chicago
rules — CST = UTC-6, CDT = UTC-5, DST from 2:00 on the second Sunday of
March to 2:00 on the first Sunday of November — are the post-2006 US rules
of the IANA tz database, which is not part of the repository's source. -/
def chicago_nonexistent (r : CsvRow) : Bool :=
  decide (spring_forward_key r.year ≤ local_key r ∧
    local_key r < spring_forward_key r.year + 60)

/-- Modelled from the spec: the row's local time is ambiguous in
America/Chicago (it falls in the repeated fall-back hour). -/
def chicago_ambiguous (r : CsvRow) : Bool :=
  decide (fall_back_key r.year ≤ local_key r ∧
    local_key r < fall_back_key r.year + 60)

/-- Modelled from the spec: the row's local time is in daylight-saving
time (CDT); boundary times that are nonexistent or ambiguous are
classified before this predicate is consulted. -/
def chicago_is_dst (r : CsvRow) : Bool :=
  decide (spring_forward_key r.year + 60 ≤ local_key r ∧
    local_key r < fall_back_key r.year)

/-- UTC epoch seconds of the row's local time read as America/Chicago:
UTC = local + 6h under CST, local + 5h under CDT. -/
def chicago_utc_seconds (r : CsvRow) : ℤ :=
  days_from_civil r.year r.month r.day * 86400 +
    (r.hour : ℤ) * 3600 + (r.minute : ℤ) * 60 +
    (if chicago_is_dst r then 5 else 6) * 3600

/-- Modelled from the spec:
`tz_localize('America/Chicago', ambiguous='NaT', nonexistent='NaT')`
(`src/convert_csv_to_parquet_utc.py` line 46): `none` is `NaT`. -/
def chicago_localize (r : CsvRow) : Option ℤ :=
  if chicago_nonexistent r || chicago_ambiguous r then none
  else some (chicago_utc_seconds r)

/-- An output row of the Parquet file
(`src/convert_csv_to_parquet_utc.py` lines 61-89). -/
structure ParquetRow where
  symbol : String
  timestamp : ℤ
  timeframe : String
  open_ : ℚ
  high : ℚ
  low : ℚ
  close : ℚ
  volume : ℤ

/-- `convert_csv_to_parquet_utc` (`src/convert_csv_to_parquet_utc.py`
lines 14-99): localize each row to America/Chicago with `NaT` for
ambiguous/nonexistent local times, drop the `NaT` rows (line 50), convert
to UTC (a no-op on the underlying instant), take the timestamp in
nanoseconds (`astype('int64')`) and divide by 10^6 with truncation toward
zero to get epoch milliseconds (line 59; exact here since the instant is
a whole second), then emit the row with `symbol = 'ES'`. -/
def convert_csv_to_parquet_utc (rows : List CsvRow) (timeframe : String) :
    List ParquetRow :=
  rows.filterMap (fun r =>
    (chicago_localize r).map (fun utc_sec =>
      { symbol := "ES"
        timestamp := (utc_sec * 1000000000).tdiv 1000000
        timeframe := timeframe
        open_ := r.open_
        high := r.high
        low := r.low
        close := r.close
        volume := r.volume }))

lemma ns_tdiv_ms (s : ℤ) : (s * 1000000000).tdiv 1000000 = 1000 * s := by
  have h : s * 1000000000 = (1000 * s) * 1000000 := by ring
  rw [h, Int.mul_tdiv_cancel _ (by norm_num)]

/-- C4: the Parquet output keeps exactly the CSV rows whose local time in
America/Chicago is neither ambiguous nor nonexistent at a daylight-saving
transition (those rows are dropped), and each written `timestamp` is the
UTC epoch-millisecond instant (1000 × the UTC epoch seconds) of the row's
date and time interpreted in America/Chicago. -/
theorem convert_csv_to_parquet_utc_spec (rows : List CsvRow) (timeframe : String) :
    convert_csv_to_parquet_utc rows timeframe =
      (rows.filter (fun r => !(chicago_ambiguous r || chicago_nonexistent r))).map
        (fun r =>
          { symbol := "ES"
            timestamp := 1000 * chicago_utc_seconds r
            timeframe := timeframe
            open_ := r.open_
            high := r.high
            low := r.low
            close := r.close
            volume := r.volume }) := by
  induction rows with
  | nil => rfl
  | cons r rows ih =>
    rw [convert_csv_to_parquet_utc] at ih ⊢
    rw [List.filterMap_cons, List.filter_cons]
    by_cases hc : (chicago_nonexistent r || chicago_ambiguous r) = true
    · have hl : chicago_localize r = none := by rw [chicago_localize, if_pos hc]
      have hf : (!(chicago_ambiguous r || chicago_nonexistent r)) = false := by
        revert hc
        cases chicago_nonexistent r <;> cases chicago_ambiguous r <;> simp
      rw [hl, hf]
      simpa using ih
    · have hl : chicago_localize r = some (chicago_utc_seconds r) := by
        rw [chicago_localize, if_neg hc]
      have hf : (!(chicago_ambiguous r || chicago_nonexistent r)) = true := by
        revert hc
        cases chicago_nonexistent r <;> cases chicago_ambiguous r <;> simp
      rw [hl, hf]
      simp only [Option.map_some, if_true, List.map_cons]
      exact List.cons_eq_cons.mpr ⟨by simp only [ns_tdiv_ms], ih⟩

end BMPS
